import Mathlib

/-!
Shallow embedding of the volume-splitting pipeline of `make_book.py`
(and of the shared `tempdir`/`cd` context managers, which `make_chapter.py`
duplicates verbatim).

Interpreter-semantics premise.  The regex literal at make_book.py line 212,
`'\\contentsline \x7bsection\x7d\x7b(.*)\x7d\x7b([0-9]+)\x7d'`, begins with
the escape `\c`.  On every Python since 3.6 that pattern is rejected:
`re.search` raises `re.error` ("bad escape \c") at the first ToC line that is
not skipped by the `\x7bchapter\x7d`/`LICENSE` tests (which run before the
regex), so the scanning loop never matches anything and aborts there.  On the
pre-3.6 interpreters this 2016-era tool targets, an unknown escape of an
ASCII letter matched that letter literally, so the effective pattern is
`contentsline \x7bsection\x7d\x7b(.*)\x7d\x7b([0-9]+)\x7d` - with NO leading
backslash (a real ToC line `\contentsline ...` matches one character in, via
the search scan).  This development embeds that effective pre-3.6 semantics,
the only one under which the program functions; where the modern `re.error`
abort changes a verdict it is recorded with the claim.

Python exceptions are modelled with `Except PyErr`; under the embedded
semantics the code raises `ValueError` (from `max()` on an empty sequence),
`ZeroDivisionError` (from `//` with a zero divisor) or `IndexError` (from
indexing a list out of range).

ToC lines are modelled as `List Char` with the trailing newline stripped
(none of the markers or the effective pattern can match across or onto a
newline, so this is observationally equivalent).
-/

inductive PyErr where
  | valueError
  | zeroDivisionError
  | indexError
deriving DecidableEq, Repr

deriving instance DecidableEq for Except

/-- The literal `'\x7bchapter\x7d' in line` test of make_book.py line 217. -/
def chapterMark : List Char := "\x7bchapter\x7d".data

/-- The literal `'LICENSE' in line` test of make_book.py line 219. -/
def licenseMark : List Char := "LICENSE".data

/-- The fixed literal prefix of the section-entry regex (line 212) under its
effective pre-3.6 semantics: the source pattern starts with the unknown
escape `\c`, which those interpreters match as the literal `c`, so the
effective prefix is `contentsline \x7bsection\x7d\x7b` with no leading
backslash (the escapes `\x7b`/`\x7d` of punctuation are literal braces in
every version).  On Python >= 3.6 the same pattern instead raises
`re.error` ("bad escape \c") at its first use. -/
def sectionEntryPrefix : List Char := "contentsline \x7bsection\x7d\x7b".data

/-- Python's substring containment `sub in s`. -/
def containsSub (sub : List Char) : List Char → Bool
  | [] => decide (sub = [])
  | c :: rest => sub.isPrefixOf (c :: rest) || containsSub sub rest

/-- Decimal value of a digit string, as Python's `int(...)` computes it on the
captured `[0-9]+` group. -/
def digitsVal (ds : List Char) : Nat :=
  ds.foldl (fun acc c => acc * 10 + (c.toNat - 48)) 0

/-- Try to match `\x7d\x7b[0-9]+\x7d` exactly at the head of `r`; on success
return the captured page number.  (`[0-9]+` greedily takes the maximal digit
run; backtracking inside the run cannot help, since a shorter run would be
followed by a digit, not by `\x7d`.) -/
def closeMatch : List Char → Option Nat
  | c1 :: c2 :: rest =>
    if c1 = '\x7d' ∧ c2 = '\x7b' then
      let ds := rest.takeWhile Char.isDigit
      if ds ≠ [] ∧ (rest.drop ds.length).headI = '\x7d' ∧ (rest.drop ds.length) ≠ [] then
        some (digitsVal ds)
      else none
    else none
  | _ => none

/-- Greedy `(.*)` semantics: find the rightmost position of `r` at which
`closeMatch` succeeds (the greedy group takes the longest possible text). -/
def greedyTail : List Char → Option Nat
  | [] => none
  | c :: rest =>
    match greedyTail rest with
    | some p => some p
    | none => closeMatch (c :: rest)

/-- `re.search` of the effective section-entry pattern on one line: try each
start position left to right; at a position where the literal prefix matches
and the greedy remainder matches, return the captured page number (group 2;
the label captured by group 1 is never used by the source). -/
def reSearchSectionPage : List Char → Option Nat
  | [] => none
  | c :: rest =>
    if sectionEntryPrefix.isPrefixOf (c :: rest) then
      match greedyTail ((c :: rest).drop sectionEntryPrefix.length) with
      | some p => some p
      | none => reSearchSectionPage rest
    else reSearchSectionPage rest

/-- Insertion into a Python (Ordered)Dict modelled as an association list:
assigning to an existing key replaces its value in place (the key keeps its
original position); a new key is appended at the end. -/
def odInsert (k : Nat) (v : α) : List (Nat × α) → List (Nat × α)
  | [] => [(k, v)]
  | (k', v') :: rest =>
    if k' = k then (k, v) :: rest else (k', v') :: odInsert k v rest

/-- Folding a sequence of dict assignments over an initial dict. -/
def odInsertList (d : List (Nat × α)) (kvs : List (Nat × α)) : List (Nat × α) :=
  kvs.foldl (fun acc kv => odInsert kv.1 kv.2 acc) d

/-- The ToC scanning loop of make_book.py lines 213-228: skip lines containing
`\x7bchapter\x7d` or `LICENSE`; on each regex match, bind the captured page
number to the next unconsumed section (`sections[section_count]`, which raises
`IndexError` when `section_count` has run past the end) and advance the
counter. -/
def parseTocLoop (sections : List α) :
    List (List Char) → List (Nat × α) → Nat → Except PyErr (List (Nat × α) × Nat)
  | [], dict, count => .ok (dict, count)
  | line :: rest, dict, count =>
    if containsSub chapterMark line then
      parseTocLoop sections rest dict count
    else if containsSub licenseMark line then
      parseTocLoop sections rest dict count
    else
      match reSearchSectionPage line with
      | none => parseTocLoop sections rest dict count
      | some page =>
        match sections[count]? with
        | none => .error .indexError
        | some s => parseTocLoop sections rest (odInsert page s dict) (count + 1)

/-- The sequence of page numbers captured by the successful matches of the
scanning loop, in scan order (skipped lines contribute nothing). -/
def matchedPages (lines : List (List Char)) : List Nat :=
  lines.filterMap fun line =>
    if containsSub chapterMark line then none
    else if containsSub licenseMark line then none
    else reSearchSectionPage line

/-- Python's `max(...)` on the dict keys (line 231): `ValueError` on an empty
sequence, otherwise the maximum. -/
def pyMax : List Nat → Except PyErr Nat
  | [] => .error .valueError
  | k :: rest => .ok (rest.foldl max k)

/-- `volumes[idx]['sections'].append(s)`: append `s` to the `idx`-th bucket
(in the source `idx` is always in range after the clamp). -/
def appendAt (vols : List (List α)) (idx : Nat) (s : α) : List (List α) :=
  vols.set idx (vols.getD idx [] ++ [s])

/-- The assignment loop of make_book.py lines 240-244: for each `(page,
section)` pair in dict iteration order, compute `page // split_point` (a zero
`split_point` raises `ZeroDivisionError`), clamp it to `number_volumes - 1`,
and append the section to that volume's list. -/
def assignLoop (n splitPoint : Nat) :
    List (Nat × α) → List (List α) → Except PyErr (List (List α))
  | [], vols => .ok vols
  | (page, s) :: rest, vols =>
    if splitPoint = 0 then .error .zeroDivisionError
    else assignLoop n splitPoint rest (appendAt vols (min (page / splitPoint) (n - 1)) s)

/-- The contents of volume `v` in the closed form of the assignment loop:
the sections of the pairs whose clamped index is `v`, in iteration order. -/
def bucketed (n splitPoint : Nat) (pairs : List (Nat × α)) (v : Nat) : List α :=
  (pairs.filter fun q => decide (min (q.1 / splitPoint) (n - 1) = v)).map Prod.snd

/-- The book metadata dict built in `__main__` of make_book.py (the keys
`split_volumes` reads), with the ToC file abstracted away: `splitVolumes`
receives the ToC lines directly. -/
structure BookInfo (α : Type) where
  title : String
  texFile : String
  releasedate : String
  contentsdir : String
  sections : List α
deriving DecidableEq

/-- A volume dict as returned by `split_volumes` (the keys filled in by lines
246-252). -/
structure VolumeInfo (α : Type) where
  title : String
  texFile : String
  releasedate : String
  contentsdir : String
  sections : List α
deriving DecidableEq

/-- The degenerate branch `return [book_info]` (line 208): the original book
dict is itself the single returned volume. -/
def bookAsVolume (b : BookInfo α) : VolumeInfo α :=
  ⟨b.title, b.texFile, b.releasedate, b.contentsdir, b.sections⟩

/-- The per-volume metadata of lines 246-252:
`'{title} Volume {i}'` and `'vol{i}.tex'`, with release date and contents
directory copied from the book. -/
def volumeMeta (title releasedate contentsdir : String) (i : Nat) (secs : List α) :
    VolumeInfo α :=
  { title := title ++ " Volume " ++ toString i
    texFile := "vol" ++ toString i ++ ".tex"
    releasedate := releasedate
    contentsdir := contentsdir
    sections := secs }

/-- `split_volumes(book_info, number_volumes)` (make_book.py lines 195-258),
reading the ToC lines that in the source come from the file
`book_info['toc']`.  The side-effecting `create_volume`/`create_toc` calls in
the final loop write files and run the external compiler; they do not affect
the returned data and are not modelled. -/
def splitVolumes (book : BookInfo α) (numberVolumes : Nat)
    (tocLines : List (List Char)) : Except PyErr (List (VolumeInfo α)) :=
  if numberVolumes < 2 then .ok [bookAsVolume book]
  else
    match parseTocLoop book.sections tocLines [] 0 with
    | .error e => .error e
    | .ok (dict, _count) =>
      match pyMax (dict.map Prod.fst) with
      | .error e => .error e
      | .ok lastPageNumber =>
        let splitPoint := lastPageNumber / numberVolumes
        match assignLoop numberVolumes splitPoint dict (List.replicate numberVolumes []) with
        | .error e => .error e
        | .ok volsSections =>
          .ok (volsSections.enum.map fun q =>
            volumeMeta book.title book.releasedate book.contentsdir q.1 q.2)

/-- A concrete well-formed ToC section-entry line as the compiler emits it
(leading backslash included; the effective pattern matches it one character
in), used by witnesses. -/
def secLine (label : String) (page : Nat) : List Char :=
  "\\contentsline \x7bsection\x7d\x7b".data ++ label.data ++ "\x7d\x7b".data ++
    (toString page).data ++ "\x7d".data

/-!
The `tempdir`/`cd` context managers (make_book.py lines 33-49, duplicated in
make_chapter.py lines 29-45), modelled as explicit state passing.  The state
records the current working directory (a directory id), whether the created
temporary directory still exists, and every relative-path file write together
with the directory it landed in.  The body of the `with tempdir()` block is
abstracted by the relative writes it performs and its outcome (normal return
or a raised exception); the bodies in both scripts never change directory
themselves, and `subprocess.run` without `check=True` reports external-tool
failure via the return code, not an exception, so both outcomes are covered.
The model assumes `mkdtemp` and the initial `chdir` succeed.
-/

structure FsState where
  cwd : Nat
  tmpExists : Bool
  writes : List (Nat × String)

/-- A `with`-block body abstracted by the relative file writes it performs and
its outcome. -/
structure BodyAction where
  relWrites : List String
  outcome : Except PyErr Unit

/-- Run a body: record its writes against the current working directory and
return its outcome. -/
def runBody (b : BodyAction) (s : FsState) : Except PyErr Unit × FsState :=
  (b.outcome, { s with writes := s.writes ++ b.relWrites.map fun nm => (s.cwd, nm) })

/-- `cd(newdir, cleanup)`: remember `prevdir = os.getcwd()`, `chdir(newdir)`,
run the body, and in the `finally` block `chdir(prevdir)` and run `cleanup` -
regardless of whether the body returned normally or raised. -/
def cdRun (newdir : Nat) (cleanup : FsState → FsState)
    (body : FsState → Except PyErr Unit × FsState) (s : FsState) :
    Except PyErr Unit × FsState :=
  let prevdir := s.cwd
  let rs := body { s with cwd := newdir }
  (rs.1, cleanup { rs.2 with cwd := prevdir })

/-- `tempdir()`: `mkdtemp` creates the directory, and the scope is a `cd` into
it whose cleanup is `shutil.rmtree(dirpath)`. -/
def tempdirRun (dirpath : Nat) (body : FsState → Except PyErr Unit × FsState)
    (s : FsState) : Except PyErr Unit × FsState :=
  cdRun dirpath (fun st => { st with tmpExists := false }) body
    { s with tmpExists := true }

/-- Claim C9: for every invocation, every relative write of the body lands in
the scoped temporary directory, and on every exit path (normal return or
raised exception, which covers success, error and external-tool failure) the
temporary directory is removed, the previous working directory is restored,
and the body's outcome propagates unchanged. -/
theorem tempdirRun_cleanup (prev tmp : Nat) (b : BodyAction) :
    (tempdirRun tmp (runBody b) ⟨prev, false, []⟩).2.cwd = prev ∧
    (tempdirRun tmp (runBody b) ⟨prev, false, []⟩).2.tmpExists = false ∧
    (tempdirRun tmp (runBody b) ⟨prev, false, []⟩).1 = b.outcome ∧
    ∀ w ∈ (tempdirRun tmp (runBody b) ⟨prev, false, []⟩).2.writes, w.1 = tmp := by
  refine ⟨rfl, rfl, rfl, ?_⟩
  intro w hw
  simp only [tempdirRun, cdRun, runBody, List.nil_append] at hw
  obtain ⟨nm, -, rfl⟩ := List.mem_map.1 hw
  rfl

/-- Claim C3: with `number_volumes < 2` the partitioner returns exactly one
volume wrapping the book unchanged (all sections, original order), and the
result does not depend on the ToC text at all (no ToC parsing occurs). -/
theorem splitVolumes_single_volume {α : Type} (book : BookInfo α) (n : Nat)
    (tocLines tocLines' : List (List Char)) (h : n < 2) :
    splitVolumes book n tocLines = .ok [bookAsVolume book] ∧
    (bookAsVolume book).sections = book.sections ∧
    splitVolumes book n tocLines = splitVolumes book n tocLines' := by
  refine ⟨?_, rfl, ?_⟩ <;> simp [splitVolumes, h]

/-- Witness for C3 at a concrete book with 3 sections and `num_volumes = 1`:
the single returned volume carries all 3 sections in order, for two different
ToC texts. -/
theorem splitVolumes_single_volume_witness :
    splitVolumes (⟨"T", "book.tex", "R", "C", [10, 20, 30]⟩ : BookInfo Nat) 1
        [secLine "a" 5] = .ok [bookAsVolume ⟨"T", "book.tex", "R", "C", [10, 20, 30]⟩] ∧
    (bookAsVolume (⟨"T", "book.tex", "R", "C", [10, 20, 30]⟩ : BookInfo Nat)).sections
        = [10, 20, 30] ∧
    splitVolumes (⟨"T", "book.tex", "R", "C", [10, 20, 30]⟩ : BookInfo Nat) 1
        [secLine "a" 5]
      = splitVolumes (⟨"T", "book.tex", "R", "C", [10, 20, 30]⟩ : BookInfo Nat) 1 [] :=
  splitVolumes_single_volume ⟨"T", "book.tex", "R", "C", [10, 20, 30]⟩ 1
    [secLine "a" 5] [] (by omega)

/-- Claim C4 (code bug): with one matched section at page 3 and
`number_volumes = 4`, `split_point = 3 // 4 = 0`, and the assignment loop
performs `page // 0`, raising `ZeroDivisionError` - the code has no explicit
configuration-error guard for a zero split point.  (On Python >= 3.6 the
program aborts even earlier, with `re.error` from the bad-escape pattern at
the first non-skipped ToC line; under no interpreter does it raise the
configuration error the claim requires.) -/
theorem splitVolumes_zero_split_divides_by_zero :
    splitVolumes (⟨"T", "book.tex", "R", "C", [0]⟩ : BookInfo Nat) 4
      [secLine "a" 3] = .error .zeroDivisionError := by
  decide

/-- Counterexample to claim C7 as stated: when the ToC has more matched
section entries (two) than the book has sections (one), the partitioner does
not silently truncate - indexing `sections[section_count]` raises
`IndexError`, so an exception IS raised in this direction of the mismatch.
(On Python >= 3.6 the same input raises `re.error` at the first line instead;
either way the claim's "no exception is raised" is false.) -/
theorem splitVolumes_excess_matches_raises :
    splitVolumes (⟨"T", "book.tex", "R", "C", [10]⟩ : BookInfo Nat) 2
      [secLine "a" 3, secLine "b" 9] = .error .indexError := by
  decide

/-! Lemmas about the scanning loop. -/

lemma odInsertList_cons (d : List (Nat × α)) (k : Nat) (v : α) (kvs : List (Nat × α)) :
    odInsertList d ((k, v) :: kvs) = odInsertList (odInsert k v d) kvs := rfl

lemma matchedPages_cons_skip {line : List Char} (rest : List (List Char))
    (h : containsSub chapterMark line = true ∨ containsSub licenseMark line = true) :
    matchedPages (line :: rest) = matchedPages rest := by
  unfold matchedPages
  rcases h with h | h
  · simp [List.filterMap_cons, h]
  · cases hc : containsSub chapterMark line <;> simp [List.filterMap_cons, hc, h]

lemma matchedPages_cons_none {line : List Char} (rest : List (List Char))
    (h1 : containsSub chapterMark line = false) (h2 : containsSub licenseMark line = false)
    (h3 : reSearchSectionPage line = none) :
    matchedPages (line :: rest) = matchedPages rest := by
  unfold matchedPages
  simp [List.filterMap_cons, h1, h2, h3]

lemma matchedPages_cons_some {line : List Char} (rest : List (List Char))
    (h1 : containsSub chapterMark line = false) (h2 : containsSub licenseMark line = false)
    {p : Nat} (h3 : reSearchSectionPage line = some p) :
    matchedPages (line :: rest) = p :: matchedPages rest := by
  unfold matchedPages
  simp [List.filterMap_cons, h1, h2, h3]

lemma parseTocLoop_cons_skip (sections : List α) {line : List Char}
    (rest : List (List Char)) (d : List (Nat × α)) (c : Nat)
    (h : containsSub chapterMark line = true ∨ containsSub licenseMark line = true) :
    parseTocLoop sections (line :: rest) d c = parseTocLoop sections rest d c := by
  rcases h with h | h
  · simp [parseTocLoop, h]
  · cases hc : containsSub chapterMark line <;> simp [parseTocLoop, hc, h]

lemma parseTocLoop_cons_none (sections : List α) {line : List Char}
    (rest : List (List Char)) (d : List (Nat × α)) (c : Nat)
    (h1 : containsSub chapterMark line = false) (h2 : containsSub licenseMark line = false)
    (h3 : reSearchSectionPage line = none) :
    parseTocLoop sections (line :: rest) d c = parseTocLoop sections rest d c := by
  simp [parseTocLoop, h1, h2, h3]

lemma parseTocLoop_cons_bind (sections : List α) {line : List Char}
    (rest : List (List Char)) (d : List (Nat × α)) (c : Nat)
    (h1 : containsSub chapterMark line = false) (h2 : containsSub licenseMark line = false)
    {p : Nat} (h3 : reSearchSectionPage line = some p)
    {s : α} (hs : sections[c]? = some s) :
    parseTocLoop sections (line :: rest) d c =
      parseTocLoop sections rest (odInsert p s d) (c + 1) := by
  simp [parseTocLoop, h1, h2, h3, hs]

lemma parseTocLoop_cons_oob (sections : List α) {line : List Char}
    (rest : List (List Char)) (d : List (Nat × α)) (c : Nat)
    (h1 : containsSub chapterMark line = false) (h2 : containsSub licenseMark line = false)
    {p : Nat} (h3 : reSearchSectionPage line = some p)
    (hs : sections[c]? = none) :
    parseTocLoop sections (line :: rest) d c = .error .indexError := by
  simp [parseTocLoop, h1, h2, h3, hs]

/-- Closed form of the scanning loop when the sections do not run out: the
result pairs the Nth captured page with the Nth unconsumed section and folds
the pairs into the dict, and the counter advances once per match. -/
lemma parseTocLoop_closed (sections : List α) (lines : List (List Char)) :
    ∀ (d : List (Nat × α)) (c : Nat),
      c + (matchedPages lines).length ≤ sections.length →
      parseTocLoop sections lines d c =
        .ok (odInsertList d ((matchedPages lines).zip (sections.drop c)),
          c + (matchedPages lines).length) := by
  induction lines with
  | nil => intro d c _; simp [parseTocLoop, matchedPages, odInsertList]
  | cons line rest ih =>
    intro d c h
    by_cases hch : containsSub chapterMark line = true
    · rw [matchedPages_cons_skip rest (Or.inl hch)] at h ⊢
      rw [parseTocLoop_cons_skip sections rest d c (Or.inl hch)]
      exact ih d c h
    · replace hch : containsSub chapterMark line = false := by simpa using hch
      by_cases hlc : containsSub licenseMark line = true
      · rw [matchedPages_cons_skip rest (Or.inr hlc)] at h ⊢
        rw [parseTocLoop_cons_skip sections rest d c (Or.inr hlc)]
        exact ih d c h
      · replace hlc : containsSub licenseMark line = false := by simpa using hlc
        cases hre : reSearchSectionPage line with
        | none =>
          rw [matchedPages_cons_none rest hch hlc hre] at h ⊢
          rw [parseTocLoop_cons_none sections rest d c hch hlc hre]
          exact ih d c h
        | some p =>
          rw [matchedPages_cons_some rest hch hlc hre] at h ⊢
          have hc : c < sections.length := by
            simp only [List.length_cons] at h; omega
          rw [parseTocLoop_cons_bind sections rest d c hch hlc hre
            (List.getElem?_eq_getElem hc)]
          rw [List.drop_eq_getElem_cons hc, List.zip_cons_cons, odInsertList_cons]
          have := ih (odInsert p sections[c] d) (c + 1)
            (by simp only [List.length_cons] at h; omega)
          rw [this]
          simp only [List.length_cons]
          congr 2
          omega

/-- When the matches outnumber the remaining sections, the scanning loop hits
`sections[section_count]` out of range and raises `IndexError`. -/
lemma parseTocLoop_overflow (sections : List α) (lines : List (List Char)) :
    ∀ (d : List (Nat × α)) (c : Nat),
      sections.length - c < (matchedPages lines).length →
      parseTocLoop sections lines d c = .error .indexError := by
  induction lines with
  | nil => intro d c h; simp [matchedPages] at h
  | cons line rest ih =>
    intro d c h
    by_cases hch : containsSub chapterMark line = true
    · rw [matchedPages_cons_skip rest (Or.inl hch)] at h
      rw [parseTocLoop_cons_skip sections rest d c (Or.inl hch)]
      exact ih d c h
    · replace hch : containsSub chapterMark line = false := by simpa using hch
      by_cases hlc : containsSub licenseMark line = true
      · rw [matchedPages_cons_skip rest (Or.inr hlc)] at h
        rw [parseTocLoop_cons_skip sections rest d c (Or.inr hlc)]
        exact ih d c h
      · replace hlc : containsSub licenseMark line = false := by simpa using hlc
        cases hre : reSearchSectionPage line with
        | none =>
          rw [matchedPages_cons_none rest hch hlc hre] at h
          rw [parseTocLoop_cons_none sections rest d c hch hlc hre]
          exact ih d c h
        | some p =>
          rw [matchedPages_cons_some rest hch hlc hre] at h
          by_cases hc : c < sections.length
          · rw [parseTocLoop_cons_bind sections rest d c hch hlc hre
              (List.getElem?_eq_getElem hc)]
            apply ih
            simp only [List.length_cons] at h
            omega
          · exact parseTocLoop_cons_oob sections rest d c hch hlc hre
              (List.getElem?_eq_none (by omega))

/-- A ToC in which no line produces a match yields no matched pages. -/
lemma matchedPages_eq_nil {tocLines : List (List Char)}
    (h : ∀ line ∈ tocLines, containsSub chapterMark line = true ∨
      containsSub licenseMark line = true ∨ reSearchSectionPage line = none) :
    matchedPages tocLines = [] := by
  apply List.filterMap_eq_nil_iff.mpr
  intro line hl
  rcases h line hl with h1 | h1 | h1
  · simp [h1]
  · cases hc : containsSub chapterMark line <;> simp [hc, h1]
  · cases hc : containsSub chapterMark line <;>
      cases hl2 : containsSub licenseMark line <;> simp [hc, hl2, h1]

/-- Claim C5: with `num_volumes ≥ 2` and a ToC in which no line matches the
effective section-entry pattern (so the page-to-section mapping stays empty),
the partitioner raises an input error (the `ValueError` from `max()` on the
empty key sequence) and aborts before the assignment loop and before any
volume is produced - it does not return an empty volume list.  (On Python
>= 3.6 the abort still happens before any partitioning, as `re.error` at the
first non-skipped line, or as this `ValueError` when every line is skipped;
in no case is an empty volume list returned.) -/
theorem splitVolumes_empty_mapping_errors {α : Type} (book : BookInfo α) (n : Nat)
    (tocLines : List (List Char)) (hn : 2 ≤ n)
    (h : ∀ line ∈ tocLines, containsSub chapterMark line = true ∨
      containsSub licenseMark line = true ∨ reSearchSectionPage line = none) :
    splitVolumes book n tocLines = .error .valueError := by
  have hmp := matchedPages_eq_nil h
  have hparse := parseTocLoop_closed book.sections tocLines [] 0 (by simp [hmp])
  rw [hmp] at hparse
  simp only [List.zip_nil_left, List.length_nil, Nat.add_zero, odInsertList] at hparse
  unfold splitVolumes
  rw [if_neg (by omega), hparse]
  simp [pyMax]

/-- Witness for C5: a ToC whose lines are a chapter entry, a LICENSE entry and
a non-matching line, with `num_volumes = 2`, makes the partitioner abort with
the empty-sequence `ValueError`. -/
theorem splitVolumes_empty_mapping_errors_witness :
    splitVolumes (⟨"T", "book.tex", "R", "C", [10]⟩ : BookInfo Nat) 2
      ["\\contentsline \x7bchapter\x7d\x7bChapter 1\x7d\x7b2\x7d".data,
       "\\contentsline \x7bsection\x7d\x7bLICENSE\x7d\x7b99\x7d".data,
       "hello world".data] = .error .valueError :=
  splitVolumes_empty_mapping_errors ⟨"T", "book.tex", "R", "C", [10]⟩ 2 _
    (by omega) (by decide)

/-- Claim C6: the scanning loop skips every line containing the chapter tag or
the literal `LICENSE` marker (second conjunct: such a line leaves the dict and
counter untouched, under every interpreter, since the skip tests run before
the regex), and the Nth successful match binds its captured page number to
section number N-1 (0-based): the resulting dict is the fold of
`(matchedPages lines).zip sections`, pairing match order with section order
regardless of the captured label text, and the final counter is the number of
matches.  The binding conjunct holds under the embedded pre-3.6 semantics;
on Python >= 3.6 no line ever matches - the loop aborts with `re.error`
instead. -/
theorem parseTocLoop_positional_binding {α : Type} (sections : List α)
    (lines : List (List Char))
    (h : (matchedPages lines).length ≤ sections.length) :
    parseTocLoop sections lines [] 0 =
      .ok (odInsertList [] ((matchedPages lines).zip sections),
        (matchedPages lines).length) ∧
    ∀ (line : List Char) (rest : List (List Char)) (d : List (Nat × α)) (c : Nat),
      (containsSub chapterMark line = true ∨ containsSub licenseMark line = true) →
      parseTocLoop sections (line :: rest) d c = parseTocLoop sections rest d c := by
  constructor
  · simpa using parseTocLoop_closed sections lines [] 0 (by omega)
  · intro line rest d c hskip
    exact parseTocLoop_cons_skip sections rest d c hskip

/-- Witness for C6: a ToC with a chapter line, a LICENSE line and two matching
entries (pages 7 and 9) against sections `[10, 20, 30]` binds page 7 to
section 0 and page 9 to section 1, counter 2; the skipped lines bind
nothing. -/
theorem parseTocLoop_positional_binding_witness :
    (matchedPages ["\\contentsline \x7bchapter\x7d\x7bChapter 1\x7d\x7b2\x7d".data,
        "\\contentsline \x7bsection\x7d\x7bLICENSE\x7d\x7b99\x7d".data,
        secLine "a" 7, secLine "b" 9] = [7, 9] ∧
      odInsertList [] ([7, 9].zip [10, 20, 30]) = [(7, 10), (9, 20)]) ∧
    parseTocLoop ([10, 20, 30] : List Nat)
      ["\\contentsline \x7bchapter\x7d\x7bChapter 1\x7d\x7b2\x7d".data,
       "\\contentsline \x7bsection\x7d\x7bLICENSE\x7d\x7b99\x7d".data,
       secLine "a" 7, secLine "b" 9] [] 0 =
      .ok (odInsertList [] ((matchedPages
        ["\\contentsline \x7bchapter\x7d\x7bChapter 1\x7d\x7b2\x7d".data,
         "\\contentsline \x7bsection\x7d\x7bLICENSE\x7d\x7b99\x7d".data,
         secLine "a" 7, secLine "b" 9]).zip [10, 20, 30]),
        (matchedPages ["\\contentsline \x7bchapter\x7d\x7bChapter 1\x7d\x7b2\x7d".data,
         "\\contentsline \x7bsection\x7d\x7bLICENSE\x7d\x7b99\x7d".data,
         secLine "a" 7, secLine "b" 9]).length) :=
  ⟨by decide, (parseTocLoop_positional_binding [10, 20, 30] _ (by decide)).1⟩

/-- Claim C7 as amended: on a count mismatch between matched ToC entries and
sections, the behaviour (under the embedded pre-3.6 semantics, the only one
in which matching occurs at all) is asymmetric.  More matches than sections:
the loop raises `IndexError` at the first excess match.  Fewer (or equally
many) matches: no exception - the loop succeeds, pairing only the matched
prefix of the section list (sections beyond the match count are silently
dropped). -/
theorem parseTocLoop_truncation_amended {α : Type} (sections : List α)
    (lines : List (List Char)) :
    (sections.length < (matchedPages lines).length →
      parseTocLoop sections lines [] 0 = .error .indexError) ∧
    ((matchedPages lines).length ≤ sections.length →
      ∃ d, parseTocLoop sections lines [] 0 =
        .ok (d, (matchedPages lines).length)) := by
  constructor
  · intro h
    exact parseTocLoop_overflow sections lines [] 0 (by omega)
  · intro h
    exact ⟨_, by simpa using parseTocLoop_closed sections lines [] 0 (by omega)⟩

/-- Witness for C7 (amended), both directions: one section with two matched
entries raises `IndexError`; three sections with one matched entry succeed
with counter 1. -/
theorem parseTocLoop_truncation_amended_witness :
    parseTocLoop ([10] : List Nat) [secLine "a" 3, secLine "b" 9] [] 0 =
      .error .indexError ∧
    ∃ d, parseTocLoop ([10, 20, 30] : List Nat) [secLine "a" 3] [] 0 =
      .ok (d, (matchedPages [secLine "a" 3]).length) :=
  ⟨(parseTocLoop_truncation_amended [10] [secLine "a" 3, secLine "b" 9]).1 (by decide),
   (parseTocLoop_truncation_amended [10, 20, 30] [secLine "a" 3]).2 (by decide)⟩

/-! Lemmas about the assignment loop. -/

/-- A list of length `n` is the range-indexed tabulation of its entries. -/
lemma range_map_getD {α : Type} (l : List (List α)) (n : Nat) (h : l.length = n) :
    (List.range n).map (fun v => l[v]?.getD []) = l := by
  apply List.ext_getElem?
  intro k
  by_cases hk : k < n
  · rw [List.getElem?_map, List.getElem?_range hk]
    simp [List.getElem?_eq_getElem (h ▸ hk)]
  · rw [List.getElem?_eq_none, List.getElem?_eq_none] <;>
      simp [h, List.length_range] <;> omega

/-- Closed form of the assignment loop with a nonzero split point: it succeeds,
and bucket `v` receives (after whatever the initial bucket already held) the
sections of exactly those pairs whose clamped index `min (page / splitPoint)
(n - 1)` equals `v`, in iteration order. -/
lemma assignLoop_closed {α : Type} (n splitPoint : Nat) (hs : splitPoint ≠ 0)
    (hn : 0 < n) (pairs : List (Nat × α)) :
    ∀ (vols : List (List α)), vols.length = n →
      assignLoop n splitPoint pairs vols =
        .ok ((List.range n).map fun v => vols.getD v [] ++ bucketed n splitPoint pairs v) := by
  induction pairs with
  | nil =>
    intro vols hlen
    simp only [assignLoop, bucketed, List.filter_nil, List.map_nil, List.append_nil]
    rw [show (fun v => vols.getD v []) = fun v => vols[v]?.getD [] from
      funext fun v => List.getD_eq_getElem?_getD vols v []]
    rw [range_map_getD vols n hlen]
  | cons q rest ih =>
    intro vols hlen
    obtain ⟨page, s⟩ := q
    rw [show assignLoop n splitPoint ((page, s) :: rest) vols =
      assignLoop n splitPoint rest (appendAt vols (min (page / splitPoint) (n - 1)) s) by
        simp [assignLoop, hs]]
    rw [ih _ (by simp [appendAt, hlen])]
    congr 1
    apply List.map_congr_left
    intro v hv
    have hvn : v < n := List.mem_range.1 hv
    have hidx : min (page / splitPoint) (n - 1) < n := by omega
    by_cases hcase : min (page / splitPoint) (n - 1) = v
    · rw [hcase]
      have : (appendAt vols v s).getD v [] = vols.getD v [] ++ [s] := by
        simp [appendAt, List.getD_eq_getElem?_getD,
          List.getElem?_set_self (by omega : v < vols.length),
          List.getElem?_eq_getElem (by omega : v < vols.length)]
      rw [this]
      have : bucketed n splitPoint ((page, s) :: rest) v =
          s :: bucketed n splitPoint rest v := by
        simp [bucketed, List.filter_cons, hcase]
      rw [this, List.append_assoc]
      rfl
    · have : (appendAt vols (min (page / splitPoint) (n - 1)) s).getD v [] =
          vols.getD v [] := by
        simp [appendAt, List.getD_eq_getElem?_getD, List.getElem?_set_ne hcase]
      rw [this]
      have : bucketed n splitPoint ((page, s) :: rest) v =
          bucketed n splitPoint rest v := by
        simp [bucketed, List.filter_cons, hcase]
      rw [this]

/-- Claim C1: for every page-to-section mapping whose `split_point =
last_page // number_volumes` is nonzero, the assignment loop succeeds, and
volume `v` receives exactly the sections of the pairs with clamped index
`min (page // split_point, number_volumes - 1) = v`, appended in iteration
order (that is what `bucketed` computes). -/
theorem splitVolumes_assignment_clamped {α : Type} (dict : List (Nat × α))
    (n lastPage v : Nat)
    (_hmax : pyMax (dict.map Prod.fst) = .ok lastPage)
    (hs : lastPage / n ≠ 0) (hv : v < n) :
    ∃ vols, assignLoop n (lastPage / n) dict (List.replicate n []) = .ok vols ∧
      vols[v]? = some (bucketed n (lastPage / n) dict v) := by
  have hn : 0 < n := by
    rcases Nat.eq_zero_or_pos n with h0 | h0
    · subst h0; simp at hs
    · exact h0
  refine ⟨_, assignLoop_closed n (lastPage / n) hs hn dict _
    (List.length_replicate n []), ?_⟩
  rw [List.getElem?_map, List.getElem?_range hv, Option.map_some']
  simp [List.getD_eq_getElem?_getD, List.getElem?_replicate, hv]

/-- Witness for C1 at the claim's concrete scenario: `last_page = 100`,
`num_volumes = 4`, so `split_point = 25`; pages 24, 25, 99, 100 land in
volumes 0, 1, 3 and 3 (page 100 clamped from raw index 4). -/
theorem splitVolumes_assignment_clamped_witness :
    (100 / 4 = 25 ∧
      bucketed 4 25 [(24, 0), (25, 1), (99, 2), (100, 3)] 0 = [0] ∧
      bucketed 4 25 [(24, 0), (25, 1), (99, 2), (100, 3)] 1 = [1] ∧
      bucketed 4 25 [(24, 0), (25, 1), (99, 2), (100, 3)] 2 = [] ∧
      bucketed 4 25 [(24, 0), (25, 1), (99, 2), (100, 3)] 3 = [2, 3] ∧
      min (100 / 25) (4 - 1) = 3) ∧
    ∃ vols, assignLoop 4 (100 / 4) [(24, 0), (25, 1), (99, 2), (100, 3)]
        (List.replicate 4 []) = .ok vols ∧
      vols[3]? = some (bucketed 4 (100 / 4) [(24, 0), (25, 1), (99, 2), (100, 3)] 3) :=
  ⟨by decide,
   splitVolumes_assignment_clamped [(24, 0), (25, 1), (99, 2), (100, 3)] 4 100 3
     (by decide) (by decide) (by decide)⟩

/-- Claim C8: with `num_volumes ≥ 2`, a nonzero split point and a well-formed
mapping (page numbers non-decreasing in iteration order, as in any ToC the
compiler emits), the pages of the sections inside any single produced volume
are non-decreasing in their within-volume order.  Each section is tagged with
its page (`dict.map fun q => (q.1, q)`) so the within-volume page sequence is
observable. -/
theorem assignLoop_within_volume_monotone {α : Type} (dict : List (Nat × α))
    (n splitPoint v : Nat) (hn : 2 ≤ n) (hs : splitPoint ≠ 0) (hv : v < n)
    (hsorted : (dict.map Prod.fst).Pairwise (· ≤ ·)) :
    ∃ vols, assignLoop n splitPoint (dict.map fun q => (q.1, q))
        (List.replicate n []) = .ok vols ∧
      ∀ l, vols[v]? = some l → (l.map Prod.fst).Pairwise (· ≤ ·) := by
  refine ⟨_, assignLoop_closed n splitPoint hs (by omega) _ _
    (List.length_replicate n []), ?_⟩
  intro l hl
  rw [List.getElem?_map, List.getElem?_range hv, Option.map_some'] at hl
  replace hl := Option.some.inj hl
  have hrep : (List.replicate n ([] : List (Nat × α))).getD v [] = [] := by
    simp [List.getD_eq_getElem?_getD, List.getElem?_replicate, hv]
  rw [hrep, List.nil_append] at hl
  have hfil : bucketed n splitPoint (dict.map fun q => (q.1, q)) v
      = dict.filter fun q => decide (min (q.1 / splitPoint) (n - 1) = v) := by
    unfold bucketed
    rw [List.filter_map, List.map_map]
    have hid : (Prod.snd ∘ fun q : Nat × α => (q.1, q)) = id := rfl
    rw [hid, List.map_id]
    rfl
  rw [hfil] at hl
  subst hl
  have hsub : List.Sublist
      ((dict.filter fun q => decide (min (q.1 / splitPoint) (n - 1) = v)).map Prod.fst)
      (dict.map Prod.fst) := (List.filter_sublist dict).map Prod.fst
  exact hsorted.sublist hsub

/-- Witness for C8: pages `[3, 9]` with `n = 2`, `split_point = 4`: volume 1
holds the section of page 9 only, trivially non-decreasing; the theorem
applies with all hypotheses discharged at this input. -/
theorem assignLoop_within_volume_monotone_witness :
    ∃ vols, assignLoop 2 4 ([(3, 10), (9, 20)].map fun q => (q.1, q))
        (List.replicate 2 []) = .ok vols ∧
      ∀ l, vols[1]? = some l → (l.map Prod.fst).Pairwise (· ≤ ·) :=
  assignLoop_within_volume_monotone [(3, 10), (9, 20)] 2 4 1
    (by decide) (by decide) (by decide) (by decide)

/-- Stable bucketing by a monotone index reassembles the original list:
if the index `f` of the elements is non-decreasing along `l` and bounded by
`n`, then concatenating, for `v = m, m+1, ..., n-1` in order, the elements
with index `v` (each group in original order) gives back `l` itself. -/
lemma range'_flatMap_filter {β : Type} (f : β → Nat) :
    ∀ (l : List β) (m n : Nat), (∀ x ∈ l, f x < n) → (∀ x ∈ l, m ≤ f x) →
      ((l.map f).Pairwise (· ≤ ·)) →
      ((List.range' m (n - m)).flatMap fun v => l.filter fun y => decide (f y = v)) = l := by
  intro l
  induction l with
  | nil => intro m n _ _ _; simp
  | cons x l ih =>
    intro m n hlt hge hpw
    have hk1 : m ≤ f x := hge x (List.mem_cons_self x l)
    have hk2 : f x < n := hlt x (List.mem_cons_self x l)
    have hge' : ∀ y ∈ l, f x ≤ f y := by
      rw [List.map_cons, List.pairwise_cons] at hpw
      intro y hy
      exact hpw.1 (f y) (List.mem_map_of_mem f hy)
    have hpw' : (l.map f).Pairwise (· ≤ ·) := by
      rw [List.map_cons, List.pairwise_cons] at hpw
      exact hpw.2
    have h2 : (n - f x) + (f x - m) = n - m := by omega
    have h1 : m + (f x - m) = f x := by omega
    have hsplit : List.range' m (n - m) =
        List.range' m (f x - m) ++ List.range' (f x) (n - f x) := by
      calc List.range' m (n - m) = List.range' m ((n - f x) + (f x - m)) := by rw [h2]
        _ = List.range' m (f x - m) ++ List.range' (m + (f x - m)) (n - f x) :=
            (List.range'_append_1 m (f x - m) (n - f x)).symm
        _ = List.range' m (f x - m) ++ List.range' (f x) (n - f x) := by rw [h1]
    rw [hsplit, List.flatMap_append]
    have hnil : ((List.range' m (f x - m)).flatMap
        fun v => (x :: l).filter fun y => decide (f y = v)) = [] := by
      apply List.flatMap_eq_nil_iff.mpr
      intro v hv
      rw [List.mem_range'_1] at hv
      have hvlt : v < f x := by omega
      apply List.filter_eq_nil_iff.mpr
      intro y hy
      rcases List.mem_cons.1 hy with rfl | hy'
      · simp only [decide_eq_true_eq]; omega
      · have := hge' y hy'
        simp only [decide_eq_true_eq]; omega
    rw [hnil, List.nil_append]
    have hpos : n - f x = (n - f x - 1) + 1 := by omega
    rw [hpos, List.range'_succ, List.flatMap_cons]
    have hhead : ((x :: l).filter fun y => decide (f y = f x)) =
        x :: (l.filter fun y => decide (f y = f x)) := by
      simp [List.filter_cons]
    rw [hhead]
    have htail : ((List.range' (f x + 1) (n - f x - 1)).flatMap
          fun v => (x :: l).filter fun y => decide (f y = v))
        = (List.range' (f x + 1) (n - f x - 1)).flatMap
          fun v => l.filter fun y => decide (f y = v) := by
      apply List.flatMap_congr
      intro v hv
      rw [List.mem_range'_1] at hv
      rw [List.filter_cons]
      have : (decide (f x = v)) = false := by
        simp only [decide_eq_false_iff_not]
        omega
      rw [this]
      simp
    rw [htail]
    have hih := ih (f x) n (fun y hy => hlt y (List.mem_cons_of_mem x hy)) hge' hpw'
    rw [hpos, List.range'_succ, List.flatMap_cons] at hih
    rw [List.cons_append, hih]

/-- Claim C2: for a complete, well-formed ToC parse under the embedded
pre-3.6 semantics (the dict covers the whole section list in order, with its
page numbers non-decreasing in iteration order as in any compiler-emitted
ToC) and `2 ≤ num_volumes ≤ last_page`, the partitioner succeeds with exactly
`num_volumes` volumes, every clamped volume index is in range
(`< num_volumes`), and concatenating the volumes' section lists in volume
order then section order reproduces the book's section list - so every
section lands in exactly one volume. -/
theorem splitVolumes_partition_complete {α : Type} (book : BookInfo α) (n : Nat)
    (tocLines : List (List Char)) (d : List (Nat × α)) (c lastPage : Nat)
    (hn : 2 ≤ n)
    (hparse : parseTocLoop book.sections tocLines [] 0 = .ok (d, c))
    (hcover : d.map Prod.snd = book.sections)
    (hsorted : (d.map Prod.fst).Pairwise (· ≤ ·))
    (hmax : pyMax (d.map Prod.fst) = .ok lastPage)
    (hlast : n ≤ lastPage) :
    ∃ vols, splitVolumes book n tocLines = .ok vols ∧
      vols.length = n ∧
      (vols.map VolumeInfo.sections).flatten = book.sections ∧
      ∀ q ∈ d, min (q.1 / (lastPage / n)) (n - 1) < n := by
  have hn0 : 0 < n := by omega
  have hsplit : lastPage / n ≠ 0 := by
    intro h0
    rw [Nat.div_eq_zero_iff hn0] at h0
    omega
  have hass := assignLoop_closed n (lastPage / n) hsplit hn0 d _
    (List.length_replicate n [])
  refine ⟨(((List.range n).map fun v =>
      (List.replicate n ([] : List α)).getD v [] ++ bucketed n (lastPage / n) d v).enum.map
        fun q => volumeMeta book.title book.releasedate book.contentsdir q.1 q.2),
    ?_, ?_, ?_, ?_⟩
  · unfold splitVolumes
    rw [if_neg (by omega)]
    simp only [hparse, hmax, hass]
  · simp
  · rw [List.map_map]
    have hsec : (VolumeInfo.sections ∘ fun q : Nat × List α =>
        volumeMeta book.title book.releasedate book.contentsdir q.1 q.2) = Prod.snd := rfl
    rw [hsec, List.enum_map_snd]
    have hget : ∀ v ∈ List.range n,
        (List.replicate n ([] : List α)).getD v [] ++ bucketed n (lastPage / n) d v
          = bucketed n (lastPage / n) d v := by
      intro v hv
      have hvn : v < n := List.mem_range.1 hv
      simp [List.getD_eq_getElem?_getD, List.getElem?_replicate, hvn]
    rw [List.map_congr_left hget]
    rw [← List.flatMap_def]
    unfold bucketed
    rw [← List.map_flatMap]
    have hbound : ∀ q ∈ d, min (q.1 / (lastPage / n)) (n - 1) < n := by
      intro q _
      have := Nat.min_le_right (q.1 / (lastPage / n)) (n - 1)
      omega
    have hmono : (d.map fun q => min (q.1 / (lastPage / n)) (n - 1)).Pairwise (· ≤ ·) := by
      rw [List.pairwise_map]
      rw [List.pairwise_map] at hsorted
      exact hsorted.imp fun h => min_le_min (Nat.div_le_div_right h) le_rfl
    have := range'_flatMap_filter (fun q : Nat × α => min (q.1 / (lastPage / n)) (n - 1))
      d 0 n hbound (fun x _ => Nat.zero_le _) hmono
    rw [List.range_eq_range', show n - 0 = n from rfl] at *
    rw [this, hcover]
  · intro q _
    have := Nat.min_le_right (q.1 / (lastPage / n)) (n - 1)
    omega

/-- Witness for C2: sections `[10, 20]`, ToC entries at pages 3 and 9,
`num_volumes = 2`: `last_page = 9`, `split_point = 4`, volumes `[[10], [20]]`,
whose concatenation is the original section list. -/
theorem splitVolumes_partition_complete_witness :
    ∃ vols, splitVolumes (⟨"T", "book.tex", "R", "C", [10, 20]⟩ : BookInfo Nat) 2
        [secLine "a" 3, secLine "b" 9] = .ok vols ∧
      vols.length = 2 ∧
      (vols.map VolumeInfo.sections).flatten = [10, 20] ∧
      ∀ q ∈ [(3, 10), (9, 20)], min (q.1 / (9 / 2)) (2 - 1) < 2 :=
  splitVolumes_partition_complete ⟨"T", "book.tex", "R", "C", [10, 20]⟩ 2
    [secLine "a" 3, secLine "b" 9] [(3, 10), (9, 20)] 2 9
    (by omega) (by decide) (by decide) (by decide) (by decide) (by omega)

/-! Lemmas about dict insertion, for the duplicate-page analysis. -/

lemma odInsert_values_subset {α : Type} (k : Nat) (w : α) :
    ∀ (d : List (Nat × α)) (x : α), x ∈ (odInsert k w d).map Prod.snd →
      x = w ∨ x ∈ d.map Prod.snd := by
  intro d
  induction d with
  | nil => intro x hx; simp [odInsert] at hx; exact Or.inl hx
  | cons q d ih =>
    intro x hx
    obtain ⟨k', v'⟩ := q
    by_cases hk : k' = k
    · rw [show odInsert k w ((k', v') :: d) = (k, w) :: d by simp [odInsert, hk]] at hx
      rcases List.mem_cons.1 hx with h | h
      · exact Or.inl h
      · exact Or.inr (by simp at h ⊢; exact Or.inr h)
    · rw [show odInsert k w ((k', v') :: d) = (k', v') :: odInsert k w d by
        simp [odInsert, hk]] at hx
      rcases List.mem_cons.1 hx with h | h
      · exact Or.inr (by simp [h])
      · rcases ih x h with h' | h'
        · exact Or.inl h'
        · exact Or.inr (by simp at h' ⊢; exact Or.inr h')

lemma mem_odInsert {α : Type} (k : Nat) (w : α) :
    ∀ (d : List (Nat × α)) (q : Nat × α), q ∈ odInsert k w d →
      q = (k, w) ∨ q ∈ d := by
  intro d
  induction d with
  | nil => intro q hq; simp [odInsert] at hq; exact Or.inl hq
  | cons r d ih =>
    intro q hq
    obtain ⟨k', v'⟩ := r
    by_cases hk : k' = k
    · rw [show odInsert k w ((k', v') :: d) = (k, w) :: d by simp [odInsert, hk]] at hq
      rcases List.mem_cons.1 hq with h | h
      · exact Or.inl h
      · exact Or.inr (List.mem_cons_of_mem _ h)
    · rw [show odInsert k w ((k', v') :: d) = (k', v') :: odInsert k w d by
        simp [odInsert, hk]] at hq
      rcases List.mem_cons.1 hq with h | h
      · exact Or.inr (by simp [h])
      · rcases ih q h with h' | h'
        · exact Or.inl h'
        · exact Or.inr (List.mem_cons_of_mem _ h')

lemma odInsert_keys {α : Type} (k : Nat) (w : α) :
    ∀ (d : List (Nat × α)) (x : Nat), x ∈ (odInsert k w d).map Prod.fst →
      x = k ∨ x ∈ d.map Prod.fst := by
  intro d x hx
  rcases List.mem_map.1 hx with ⟨q, hq, rfl⟩
  rcases mem_odInsert k w d q hq with rfl | h
  · exact Or.inl rfl
  · exact Or.inr (List.mem_map_of_mem Prod.fst h)

lemma odInsert_keys_nodup {α : Type} (k : Nat) (w : α) :
    ∀ (d : List (Nat × α)), (d.map Prod.fst).Nodup →
      ((odInsert k w d).map Prod.fst).Nodup := by
  intro d
  induction d with
  | nil => intro _; simp [odInsert]
  | cons r d ih =>
    intro hnd
    obtain ⟨k', v'⟩ := r
    rw [List.map_cons, List.nodup_cons] at hnd
    by_cases hk : k' = k
    · rw [show odInsert k w ((k', v') :: d) = (k, w) :: d by simp [odInsert, hk]]
      rw [List.map_cons, List.nodup_cons]
      exact ⟨hk ▸ hnd.1, hnd.2⟩
    · rw [show odInsert k w ((k', v') :: d) = (k', v') :: odInsert k w d by
        simp [odInsert, hk]]
      rw [List.map_cons, List.nodup_cons]
      refine ⟨fun hmem => ?_, ih hnd.2⟩
      rcases odInsert_keys k w d k' hmem with h | h
      · exact hk h
      · exact hnd.1 h

lemma odInsertList_value_absent {α : Type} (v : α) :
    ∀ (kvs d : List (Nat × α)), v ∉ d.map Prod.snd → v ∉ kvs.map Prod.snd →
      v ∉ (odInsertList d kvs).map Prod.snd := by
  intro kvs
  induction kvs with
  | nil => intro d hd _; exact hd
  | cons kv kvs ih =>
    intro d hd hk
    obtain ⟨k, w⟩ := kv
    rw [odInsertList_cons]
    apply ih
    · intro hmem
      rcases odInsert_values_subset k w d v hmem with rfl | h
      · exact hk (by simp)
      · exact hd h
    · intro h
      exact hk (by simp at h ⊢; exact Or.inr h)

lemma odInsert_replace_absent {α : Type} (p : Nat) (w v : α) :
    ∀ (d : List (Nat × α)), (d.map Prod.fst).Nodup →
      (∀ k' w', (k', w') ∈ d → w' = v → k' = p) → w ≠ v →
      v ∉ (odInsert p w d).map Prod.snd := by
  intro d
  induction d with
  | nil =>
    intro _ _ hwv
    simp [odInsert]
    exact fun h => hwv h.symm
  | cons r d ih =>
    intro hnd hinv hwv
    obtain ⟨k', v'⟩ := r
    rw [List.map_cons, List.nodup_cons] at hnd
    by_cases hk : k' = p
    · subst hk
      rw [show odInsert k' w ((k', v') :: d) = (k', w) :: d by simp [odInsert]]
      rw [List.map_cons]
      intro hmem
      rcases List.mem_cons.1 hmem with h | h
      · exact hwv h.symm
      · rcases List.mem_map.1 h with ⟨q, hq, rfl⟩
        have hq' : (q.1, q.2) ∈ ((k', v') :: d) := List.mem_cons_of_mem _ (by simpa using hq)
        have hkeq := hinv q.1 q.2 hq' rfl
        have hk1 : q.1 ∈ List.map Prod.fst d := List.mem_map_of_mem Prod.fst hq
        rw [hkeq] at hk1
        exact hnd.1 hk1
    · rw [show odInsert p w ((k', v') :: d) = (k', v') :: odInsert p w d by
        simp [odInsert, hk]]
      rw [List.map_cons]
      intro hmem
      rcases List.mem_cons.1 hmem with h | h
      · exact hk (hinv k' v' (List.mem_cons_self _ _) h.symm)
      · exact ih hnd.2
          (fun k'' w'' hm hw => hinv k'' w'' (List.mem_cons_of_mem _ hm) hw) hwv h

/-- If the value `v` sits (at most) under key `p` in the dict, some later
assignment hits key `p`, and `v` never reappears among the later values, then
`v` is absent from the final dict: the later same-key assignment overwrites
it. -/
lemma odInsertList_drops_overwritten {α : Type} (v : α) (p : Nat) :
    ∀ (kvs d : List (Nat × α)),
      (d.map Prod.fst).Nodup →
      (∀ k' w', (k', w') ∈ d → w' = v → k' = p) →
      v ∉ kvs.map Prod.snd →
      (∃ q ∈ kvs, q.1 = p) →
      v ∉ (odInsertList d kvs).map Prod.snd := by
  intro kvs
  induction kvs with
  | nil =>
    rintro d _ _ _ ⟨q, hq, _⟩
    exact absurd hq (List.not_mem_nil q)
  | cons kv kvs ih =>
    rintro d hnd hinv hv ⟨q, hq, hqp⟩
    obtain ⟨k, w⟩ := kv
    have hwv : w ≠ v := fun h => hv (by simp [h])
    have hvtail : v ∉ kvs.map Prod.snd := fun h => hv (by simp at h ⊢; exact Or.inr h)
    rw [odInsertList_cons]
    by_cases hk : k = p
    · subst hk
      exact odInsertList_value_absent v kvs _
        (odInsert_replace_absent k w v d hnd hinv hwv) hvtail
    · apply ih (odInsert k w d) (odInsert_keys_nodup k w d hnd)
      · intro k' w' hmem hw'
        rcases mem_odInsert k w d (k', w') hmem with heq | hin
        · cases heq
          exact absurd hw' hwv
        · exact hinv k' w' hin hw'
      · exact hvtail
      · rcases List.mem_cons.1 hq with rfl | hq'
        · exact absurd hqp hk
        · exact ⟨q, hq', hqp⟩

/-- `map Prod.snd` of a zip is a sublist of the second list. -/
lemma map_snd_zip_sublist {α : Type} :
    ∀ (l₁ : List Nat) (l₂ : List α), List.Sublist ((l₁.zip l₂).map Prod.snd) l₂ := by
  intro l₁
  induction l₁ with
  | nil => intro l₂; simp
  | cons a l₁ ih =>
    intro l₂
    cases l₂ with
    | nil => simp
    | cons b l₂ =>
      rw [List.zip_cons_cons, List.map_cons]
      exact List.Sublist.cons₂ b (ih l₂)

lemma odInsertList_append {α : Type} (d l₁ l₂ : List (Nat × α)) :
    odInsertList d (l₁ ++ l₂) = odInsertList (odInsertList d l₁) l₂ := by
  unfold odInsertList
  rw [List.foldl_append]

lemma mem_odInsertList {α : Type} :
    ∀ (kvs d : List (Nat × α)) (q : Nat × α), q ∈ odInsertList d kvs →
      q ∈ d ∨ q ∈ kvs := by
  intro kvs
  induction kvs with
  | nil => intro d q h; exact Or.inl h
  | cons kv kvs ih =>
    intro d q h
    obtain ⟨k, w⟩ := kv
    rw [odInsertList_cons] at h
    rcases ih _ q h with h' | h'
    · rcases mem_odInsert k w d q h' with heq | hin
      · exact Or.inr (heq ▸ List.mem_cons_self _ _)
      · exact Or.inl hin
    · exact Or.inr (List.mem_cons_of_mem _ h')

lemma odInsertList_keys_nodup {α : Type} :
    ∀ (kvs d : List (Nat × α)), (d.map Prod.fst).Nodup →
      ((odInsertList d kvs).map Prod.fst).Nodup := by
  intro kvs
  induction kvs with
  | nil => intro d h; exact h
  | cons kv kvs ih =>
    intro d h
    obtain ⟨k, w⟩ := kv
    rw [odInsertList_cons]
    exact ih _ (odInsert_keys_nodup k w d h)

/-- Claim C10: when the Nth and Mth matched ToC lines (N < M) carry the same
page number `p`, the dict assignment of the later match overwrites the
earlier one, so (for pairwise-distinct sections) the section bound by the
earlier match is absent from the final page-to-section dict and therefore
appears in no produced volume - while the positional counter still advances
for both matches (the final count is the full number of matches).  Matching,
and hence this scenario, occurs under the embedded pre-3.6 semantics; on
Python >= 3.6 the loop aborts with `re.error` before any match. -/
theorem parseTocLoop_duplicate_page_drops {α : Type} (sections : List α)
    (lines : List (List Char)) (i j p : Nat)
    (hnd : sections.Nodup)
    (hlen : (matchedPages lines).length ≤ sections.length)
    (hij : i < j)
    (hi : (matchedPages lines)[i]? = some p)
    (hj : (matchedPages lines)[j]? = some p) :
    ∃ d s, parseTocLoop sections lines [] 0 = .ok (d, (matchedPages lines).length) ∧
      sections[i]? = some s ∧
      s ∉ d.map Prod.snd ∧
      ∀ (n split : Nat) (vols : List (List α)), split ≠ 0 → 0 < n →
        assignLoop n split d (List.replicate n []) = .ok vols →
        ∀ l ∈ vols, s ∉ l := by
  have hjL : j < (matchedPages lines).length := by
    by_contra hc
    rw [List.getElem?_eq_none (by omega)] at hj
    exact Option.noConfusion hj
  have hiL : i < (matchedPages lines).length := by omega
  have hiS : i < sections.length := by omega
  have hjS : j < sections.length := by omega
  have hzL : i < ((matchedPages lines).zip sections).length := by
    rw [List.length_zip]; omega
  have hparse := parseTocLoop_closed sections lines [] 0 (by omega)
  have habs : sections[i] ∉
      (odInsertList [] ((matchedPages lines).zip sections)).map Prod.snd := by
    have hkvi : ((matchedPages lines).zip sections)[i]? = some (p, sections[i]) := by
      rw [List.getElem?_zip_eq_some]
      exact ⟨hi, List.getElem?_eq_getElem hiS⟩
    have hkvj : ((matchedPages lines).zip sections)[j]? = some (p, sections[j]) := by
      rw [List.getElem?_zip_eq_some]
      exact ⟨hj, List.getElem?_eq_getElem hjS⟩
    have hel : ((matchedPages lines).zip sections)[i] = (p, sections[i]) := by
      have h1 := List.getElem?_eq_getElem hzL
      rw [hkvi] at h1
      exact (Option.some.inj h1).symm
    have hdecomp : (matchedPages lines).zip sections =
        ((matchedPages lines).zip sections).take i ++
          (p, sections[i]) :: ((matchedPages lines).zip sections).drop (i + 1) := by
      conv_lhs => rw [← List.take_append_drop i ((matchedPages lines).zip sections)]
      congr 1
      rw [List.drop_eq_getElem_cons hzL, hel]
    have hnodupvals : (((matchedPages lines).zip sections).map Prod.snd).Nodup :=
      (map_snd_zip_sublist (matchedPages lines) sections).nodup hnd
    have hvals : (((matchedPages lines).zip sections).map Prod.snd) =
        (((matchedPages lines).zip sections).take i).map Prod.snd ++
          sections[i] :: (((matchedPages lines).zip sections).drop (i + 1)).map Prod.snd := by
      conv_lhs => rw [hdecomp]
      simp
    rw [hvals] at hnodupvals
    have hndparts := List.nodup_append.1 hnodupvals
    have hsA : sections[i] ∉
        ((((matchedPages lines).zip sections).take i).map Prod.snd) := by
      intro hmem
      exact hndparts.2.2 hmem (List.mem_cons_self _ _)
    have hsB : sections[i] ∉
        ((((matchedPages lines).zip sections).drop (i + 1)).map Prod.snd) :=
      (List.nodup_cons.1 hndparts.2.1).1
    have hpB : (p, sections[j]) ∈ ((matchedPages lines).zip sections).drop (i + 1) := by
      apply List.getElem?_mem (n := j - (i + 1))
      rw [List.getElem?_drop]
      rw [show i + 1 + (j - (i + 1)) = j by omega]
      exact hkvj
    have hkeys : ((odInsertList []
        (((matchedPages lines).zip sections).take i)).map Prod.fst).Nodup :=
      odInsertList_keys_nodup _ [] (by simp)
    have hinv : ∀ k' w', (k', w') ∈ odInsert p sections[i]
          (odInsertList [] (((matchedPages lines).zip sections).take i)) →
        w' = sections[i] → k' = p := by
      intro k' w' hm hw
      rcases mem_odInsert p sections[i] _ _ hm with heq | hin
      · cases heq; rfl
      · rcases mem_odInsertList _ [] (k', w') hin with h0 | hA
        · exact absurd h0 (List.not_mem_nil _)
        · exact absurd (hw ▸ List.mem_map_of_mem Prod.snd hA) hsA
    rw [hdecomp, odInsertList_append, odInsertList_cons]
    exact odInsertList_drops_overwritten sections[i] p _ _
      (odInsert_keys_nodup p sections[i] _ hkeys) hinv hsB
      ⟨(p, sections[j]), hpB, rfl⟩
  refine ⟨odInsertList [] ((matchedPages lines).zip sections), sections[i],
    by simpa using hparse, List.getElem?_eq_getElem hiS, habs, ?_⟩
  intro n split vols hs hn hass l hl hsl
  have hclosed := assignLoop_closed n split hs hn
    (odInsertList [] ((matchedPages lines).zip sections)) _ (List.length_replicate n [])
  rw [hass] at hclosed
  rw [Except.ok.inj hclosed] at hl
  rcases List.mem_map.1 hl with ⟨v, hv, rfl⟩
  have hrep : (List.replicate n ([] : List α)).getD v [] = [] := by
    simp only [List.getD_eq_getElem?_getD, List.getElem?_replicate]
    split <;> rfl
  rw [hrep, List.nil_append] at hsl
  unfold bucketed at hsl
  rcases List.mem_map.1 hsl with ⟨q, hq, hq2⟩
  exact habs (hq2 ▸ List.mem_map_of_mem Prod.snd (List.mem_of_mem_filter hq))

/-- Witness for C10: sections `[10, 20]` and two matched lines both at page 7:
the parse succeeds with counter 2, section 10 (bound by the earlier match) is
absent from the dict and from every produced volume. -/
theorem parseTocLoop_duplicate_page_drops_witness :
    ∃ d s, parseTocLoop ([10, 20] : List Nat) [secLine "a" 7, secLine "b" 7] [] 0 =
        .ok (d, (matchedPages [secLine "a" 7, secLine "b" 7]).length) ∧
      ([10, 20] : List Nat)[0]? = some s ∧
      s ∉ d.map Prod.snd ∧
      ∀ (n split : Nat) (vols : List (List Nat)), split ≠ 0 → 0 < n →
        assignLoop n split d (List.replicate n []) = .ok vols →
        ∀ l ∈ vols, s ∉ l :=
  parseTocLoop_duplicate_page_drops [10, 20] [secLine "a" 7, secLine "b" 7] 0 1 7
    (by decide) (by decide) (by decide) (by decide) (by decide)
